import Mathlib

/-!
Verification of the core text-processing components of the single-task focus app:
the brain-dump task extractor (`src/frontend/src/lib/brainDumpTaskExtractor.ts`) and
the deterministic task-energy classifier (`src/frontend/src/lib/taskEnergyClassifier.ts`).

Both TypeScript modules are pure, deterministic string processors.  They are embedded
shallowly here: JavaScript strings become `List Char` (with `String` wrappers at the
public entry points), each regular expression used by the source is translated into an
explicit, executable character-scanning function, and JavaScript `Array`/`Set`
operations become list operations.  JavaScript `\s`, `\w`, `trim`, `toLowerCase` are
modelled on the ASCII range, which covers every character class the two modules
distinguish.  All definitions are structurally recursive (scanners that can jump over
a matched separator take an explicit fuel argument equal to the input length), so all
of them evaluate by `decide`/`rfl` on concrete inputs.
-/

/-! ## Basic character classes and string primitives -/

/-- Whitespace as matched by JavaScript `\s` and `String.prototype.trim`
(modelled on the ASCII range: space, tab, newline, carriage return,
vertical tab, form feed). -/
def isJsWS (c : Char) : Bool :=
  c = ' ' || c = '\t' || c = '\n' || c = '\r' || c = Char.ofNat 11 || c = Char.ofNat 12

/-- Word characters as matched by JavaScript `\w` (and used by `\b` word boundaries):
ASCII letters, digits, underscore. -/
def isWordChar (c : Char) : Bool :=
  ('a' ≤ c && c ≤ 'z') || ('A' ≤ c && c ≤ 'Z') || ('0' ≤ c && c ≤ '9') || c = '_'

/-- JavaScript `String.prototype.toLowerCase` (ASCII range). -/
def toLowerL (l : List Char) : List Char := l.map Char.toLower

/-- Drop leading JS whitespace (the front half of `trim`). -/
def trimStartWS (l : List Char) : List Char := l.dropWhile isJsWS

/-- Drop trailing JS whitespace (the back half of `trim`). -/
def trimEndWS (l : List Char) : List Char := (l.reverse.dropWhile isJsWS).reverse

/-- JavaScript `String.prototype.trim`. -/
def jsTrim (l : List Char) : List Char := trimEndWS (trimStartWS l)

/-- Case-insensitive literal match: `litCI pat l` succeeds when the lowercase pattern
`pat` matches the front of `l` case-insensitively, returning the rest of `l`.
Used to model case-insensitive regex literals. -/
def litCI : List Char → List Char → Option (List Char)
  | [], l => some l
  | _ :: _, [] => none
  | p :: ps, c :: cs => if c.toLower = p then litCI ps cs else none

/-- Regex `\s+` (greedy): requires at least one whitespace character, consumes the
maximal run, returns the rest. -/
def wsPlus : List Char → Option (List Char)
  | [] => none
  | c :: cs => if isJsWS c then some (cs.dropWhile isJsWS) else none

/-- The `\b` word-boundary test that applies after a match ending in a word
character: the next input character must not be a word character (or the input
must be exhausted). -/
def boundaryOkAfter : List Char → Bool
  | [] => true
  | d :: _ => !isWordChar d

/-- JavaScript `String.prototype.includes`: does `needle` occur as a contiguous
subsequence of `hay`? -/
def containsSeq (needle : List Char) : List Char → Bool
  | [] => needle.isEmpty
  | c :: t => needle.isPrefixOf (c :: t) || containsSeq needle t

/-- Replace every maximal run of characters satisfying `p` by a single space.
Models the JavaScript replacements `replace(/\s+/g, ' ')` (with `p = isJsWS`)
and `replace(/[ \t]+/g, ' ')` (with `p = space-or-tab`). -/
def collapseRuns (p : Char → Bool) : List Char → List Char
  | [] => []
  | c :: rest =>
    match rest with
    | [] => if p c then [' '] else [c]
    | c2 :: _ =>
      if p c && p c2 then collapseRuns p rest
      else (if p c then ' ' else c) :: collapseRuns p rest

/-- Turn a remainder-style matcher into a consumed-length matcher. -/
def toCount (f : List Char → Option (List Char)) (l : List Char) : Option Nat :=
  (f l).map (fun r => l.length - r.length)

/-- Worker for `splitOn`: leftmost, non-overlapping scan that cuts the input at
every position where the matcher `m` succeeds, exactly as JavaScript
`String.prototype.split` with a regex does (empty pieces included).  `fuel`
bounds the recursion; it is always instantiated with `length + 1`. -/
def splitOnGo (m : List Char → Option Nat) : Nat → List Char → List Char → List (List Char)
  | 0, acc, l => [acc.reverse ++ l]
  | _ + 1, acc, [] => [acc.reverse]
  | fuel + 1, acc, c :: rest =>
    match m (c :: rest) with
    | some k => acc.reverse :: splitOnGo m fuel [] ((c :: rest).drop (max k 1))
    | none => splitOnGo m fuel (c :: acc) rest

/-- JavaScript `str.split(regex)` for the separator regexes used by the source. -/
def splitOn (m : List Char → Option Nat) (l : List Char) : List (List Char) :=
  splitOnGo m (l.length + 1) [] l

/-- Worker for `countOcc`: count leftmost, non-overlapping matches of `m`,
as JavaScript `(text.match(/…/g) || []).length` does. -/
def countOccGo (m : List Char → Option Nat) : Nat → List Char → Nat
  | 0, _ => 0
  | _ + 1, [] => 0
  | fuel + 1, c :: rest =>
    match m (c :: rest) with
    | some k => 1 + countOccGo m fuel ((c :: rest).drop (max k 1))
    | none => countOccGo m fuel rest

/-- Count of global regex matches in a string. -/
def countOcc (m : List Char → Option Nat) (l : List Char) : Nat :=
  countOccGo m (l.length + 1) l

/-- Worker for `regexTest`: scan for a match of any alternative, tracking whether the
previous character was a word character so that the leading `\b` of the source
patterns is honoured; after a successful alternative the trailing `\b` is checked
with `boundaryOkAfter`. -/
def regexTestGo (alts : List (List Char → Option (List Char))) : Bool → List Char → Bool
  | _, [] => false
  | prevW, c :: rest =>
    (!prevW && alts.any fun f =>
      match f (c :: rest) with
      | some r => boundaryOkAfter r
      | none => false)
    || regexTestGo alts (isWordChar c) rest

/-- JavaScript `/\b(alt1|alt2|…)\b/i.test(text)`. -/
def regexTest (alts : List (List Char → Option (List Char))) (l : List Char) : Bool :=
  regexTestGo alts false l

/-- A plain case-insensitive word alternative inside a `\b(...)\b` group. -/
def wordAlt (w : String) : List Char → Option (List Char) := litCI w.data

/-- An alternative of the shape `num\s*unit` (such as `5\s*min` or `half\s*day`)
inside a `\b(...)\b` group. -/
def numAlt (num unit : String) (l : List Char) : Option (List Char) := do
  let r1 ← litCI num.data l
  litCI unit.data (r1.dropWhile isJsWS)

/-! ## Energy classifier data model (`taskEnergyClassifier.ts`) -/

/-- Model of `EnergyCategory` from `taskEnergyClassifier.ts`: the closed four-label union. -/
inductive EnergyCategory where
  | DEEP | STEADY | LOW | NONE
deriving DecidableEq, Repr

/-- The confidence union type of high, medium and low. -/
inductive Confidence where
  | high | medium | low
deriving DecidableEq, Repr

/-- The complexity analysis result (high, medium or low) of `analyzeComplexity`. -/
inductive Complexity where
  | high | medium | low
deriving DecidableEq, Repr

/-- The time-estimate analysis result (quick, medium or long) of
`analyzeTimeEstimate` (the null case is modelled by `Option`). -/
inductive TimeEst where
  | quick | medium | long
deriving DecidableEq, Repr

/-- Model of `ClassificationResult` from `taskEnergyClassifier.ts`. -/
structure ClassificationResult where
  category : EnergyCategory
  explanation : String
  confidence : Confidence
deriving DecidableEq, Repr

/-- The return type of `classifyTaskEnergy`: `ClassificationResult | { error: string }`. -/
inductive ClassOutcome where
  | ok (r : ClassificationResult)
  | error (msg : String)
deriving DecidableEq, Repr

/-- Is the outcome the `{ error }` shape? -/
def ClassOutcome.isErr : ClassOutcome → Bool
  | .ok _ => false
  | .error _ => true

/-- Category of a successful outcome, if any. -/
def ClassOutcome.categoryOf : ClassOutcome → Option EnergyCategory
  | .ok r => some r.category
  | .error _ => none

/-- Confidence of a successful outcome, if any. -/
def ClassOutcome.confidenceOf : ClassOutcome → Option Confidence
  | .ok r => some r.confidence
  | .error _ => none

/-- Model of `DEEP_FOCUS_KEYWORDS` (taskEnergyClassifier.ts lines 13–17). -/
def DEEP_FOCUS_KEYWORDS : List String :=
  ["design", "architect", "plan", "strategy", "research", "analyze", "create",
   "write", "develop", "solve", "complex", "algorithm", "brainstorm", "innovate",
   "conceptualize", "prototype", "refactor", "optimize", "debug", "learn"]

/-- Model of `STEADY_WORK_KEYWORDS` (lines 19–23). -/
def STEADY_WORK_KEYWORDS : List String :=
  ["implement", "build", "code", "test", "review", "document", "update",
   "fix", "configure", "setup", "integrate", "deploy", "migrate", "prepare",
   "organize", "coordinate", "schedule", "meeting", "call", "presentation"]

/-- Model of `LOW_ENERGY_KEYWORDS` (lines 25–29). -/
def LOW_ENERGY_KEYWORDS : List String :=
  ["read", "check", "review", "respond", "reply", "email", "message",
   "browse", "watch", "listen", "follow up", "monitor", "track", "update status",
   "light", "simple", "quick", "easy", "routine"]

/-- Model of `NO_BRAIN_KEYWORDS` (lines 31–35). -/
def NO_BRAIN_KEYWORDS : List String :=
  ["file", "sort", "clean", "organize files", "delete", "archive", "backup",
   "copy", "paste", "format", "rename", "move", "download", "upload",
   "mindless", "repetitive", "mechanical", "administrative", "data entry"]

/-- Model of `countKeywordMatches` (lines 50–53): the number of keywords that occur as
substrings of the lowercased text. -/
def countKeywordMatches (text : List Char) (keywords : List String) : Nat :=
  (keywords.filter fun k => containsSeq k.data (toLowerL text)).length

/-- The alternatives of `COMPLEXITY_INDICATORS.high`
(`/\b(complex|difficult|challenging|advanced|deep|critical|important)\b/i`). -/
def complexityHighAlts : List (List Char → Option (List Char)) :=
  [wordAlt "complex", wordAlt "difficult", wordAlt "challenging", wordAlt "advanced",
   wordAlt "deep", wordAlt "critical", wordAlt "important"]

/-- The alternatives of `COMPLEXITY_INDICATORS.low`
(`/\b(simple|easy|basic|straightforward|routine|trivial)\b/i`). -/
def complexityLowAlts : List (List Char → Option (List Char)) :=
  [wordAlt "simple", wordAlt "easy", wordAlt "basic", wordAlt "straightforward",
   wordAlt "routine", wordAlt "trivial"]

/-- The alternatives of `TIME_PATTERNS.quick` (`/\b(quick|fast|5\s*min|10\s*min|brief)\b/i`). -/
def timeQuickAlts : List (List Char → Option (List Char)) :=
  [wordAlt "quick", wordAlt "fast", numAlt "5" "min", numAlt "10" "min", wordAlt "brief"]

/-- The alternatives of `TIME_PATTERNS.medium` (`/\b(30\s*min|hour|1\s*hr)\b/i`). -/
def timeMediumAlts : List (List Char → Option (List Char)) :=
  [numAlt "30" "min", wordAlt "hour", numAlt "1" "hr"]

/-- The alternatives of `TIME_PATTERNS.long`
(`/\b(2\s*hr|3\s*hr|half\s*day|full\s*day|several\s*hours)\b/i`). -/
def timeLongAlts : List (List Char → Option (List Char)) :=
  [numAlt "2" "hr", numAlt "3" "hr", numAlt "half" "day", numAlt "full" "day",
   numAlt "several" "hours"]

/-- Model of `analyzeComplexity` (lines 55–59). -/
def analyzeComplexity (text : List Char) : Complexity :=
  if regexTest complexityHighAlts text then .high
  else if regexTest complexityLowAlts text then .low
  else .medium

/-- Model of `analyzeTimeEstimate` (lines 61–66): quick, then long, then medium, else `null`. -/
def analyzeTimeEstimate (text : List Char) : Option TimeEst :=
  if regexTest timeQuickAlts text then some .quick
  else if regexTest timeLongAlts text then some .long
  else if regexTest timeMediumAlts text then some .medium
  else none

/-- The mutable `scores` object of `classifyTaskEnergy` (lines 90–95). -/
structure Scores where
  DEEP : Nat
  STEADY : Nat
  LOW : Nat
  NONE : Nat
deriving DecidableEq, Repr

/-- Score lookup `scores[key]`. -/
def scoreOf (s : Scores) : EnergyCategory → Nat
  | .DEEP => s.DEEP
  | .STEADY => s.STEADY
  | .LOW => s.LOW
  | .NONE => s.NONE

/-- The adjusted scores of `classifyTaskEnergy` (lines 79–113): keyword-match counts
per category plus the complexity and time-estimate adjustments. -/
def adjustScores (t : List Char) : Scores :=
  let s0 : Scores :=
    { DEEP := countKeywordMatches t DEEP_FOCUS_KEYWORDS
      STEADY := countKeywordMatches t STEADY_WORK_KEYWORDS
      LOW := countKeywordMatches t LOW_ENERGY_KEYWORDS
      NONE := countKeywordMatches t NO_BRAIN_KEYWORDS }
  let s1 : Scores :=
    match analyzeComplexity t with
    | .high => { s0 with DEEP := s0.DEEP + 2, STEADY := s0.STEADY + 1 }
    | .low => { s0 with LOW := s0.LOW + 1, NONE := s0.NONE + 2 }
    | .medium => s0
  match analyzeTimeEstimate t with
  | some .quick => { s1 with LOW := s1.LOW + 1, NONE := s1.NONE + 1 }
  | some .long => { s1 with DEEP := s1.DEEP + 1, STEADY := s1.STEADY + 1 }
  | _ => s1

/-- Model of `Math.max(...Object.values(scores))` (line 116). -/
def maxAdjScore (t : List Char) : Nat :=
  let s := adjustScores t
  max (max s.DEEP s.STEADY) (max s.LOW s.NONE)

/-- Model of `topCategories` (lines 117–119): the categories achieving the maximum score, in the
insertion order of the `scores` object (DEEP, STEADY, LOW, NONE). -/
def topCategories (t : List Char) : List EnergyCategory :=
  ([.DEEP, .STEADY, .LOW, .NONE] : List EnergyCategory).filter
    fun k => scoreOf (adjustScores t) k == maxAdjScore t

/-- The confidence computation (lines 122–129): high if the max score is ≥ 3,
medium if ≥ 1, else low. -/
def confFromMax (m : Nat) : Confidence :=
  if 3 ≤ m then .high else if 1 ≤ m then .medium else .low

/-- The `explanations` table of `generateExplanation` (lines 169–190). -/
def explanationsTable : EnergyCategory → List String
  | .DEEP =>
    ["This task involves complex thinking, creativity, or problem-solving",
     "Requires deep concentration and mental energy",
     "Best tackled when you have uninterrupted focus time"]
  | .STEADY =>
    ["This is regular productive work that needs consistent attention",
     "Requires steady focus but not necessarily peak mental energy",
     "Good for your normal working hours"]
  | .LOW =>
    ["This is a meaningful but lighter task",
     "Can be done when your energy is lower",
     "Good for times when you need to stay productive but feel less energized"]
  | .NONE =>
    ["This is a simple, mechanical task",
     "Requires minimal mental effort",
     "Perfect for when you need to stay busy but your brain needs a break"]

/-- Model of `generateExplanation` (lines 162–213).  The `text` parameter is unused in the
source as well. -/
def generateExplanation (category : EnergyCategory) (_text : List Char)
    (complexity : Complexity) (timeEstimate : Option TimeEst)
    (confidence : Confidence) : String :=
  let lead := (explanationsTable category).headD ""
  let e1 :=
    if complexity = .high ∧ category = .DEEP then
      lead ++ " due to its complexity"
    else if timeEstimate = some .quick ∧ (category = .LOW ∨ category = .NONE) then
      lead ++ " and should be quick to complete"
    else if timeEstimate = some .long ∧ (category = .DEEP ∨ category = .STEADY) then
      lead ++ " and may take significant time"
    else lead
  if confidence = .low then
    "Best guess: " ++ e1 ++ ". Consider adding more details for a better suggestion."
  else e1 ++ "."

/-- The body of `classifyTaskEnergy` after input validation (lines 79–159), applied to
the trimmed text: scoring, tie detection, and the fallback heuristics. -/
def classifyCore (t : List Char) : ClassificationResult :=
  if (topCategories t).length = 1 ∧ 0 < maxAdjScore t then
    let cat := (topCategories t).headD .DEEP
    { category := cat
      explanation := generateExplanation cat t (analyzeComplexity t) (analyzeTimeEstimate t)
        (confFromMax (maxAdjScore t))
      confidence := confFromMax (maxAdjScore t) }
  else if analyzeComplexity t = .high then
    { category := .DEEP
      explanation := "This seems like a complex task requiring focused thinking. Best guess based on the complexity level."
      confidence := .low }
  else if analyzeTimeEstimate t = some .quick then
    { category := .LOW
      explanation := "This appears to be a quick task. Best guess based on the time estimate."
      confidence := .low }
  else if t.length < 20 then
    { category := .NONE
      explanation := "This seems like a simple, straightforward task. Best guess based on the brief description."
      confidence := .low }
  else
    { category := .STEADY
      explanation := "This looks like regular productive work. Best guess - consider adding more details for a better suggestion."
      confidence := .low }

/-- Model of `classifyTaskEnergy` (lines 68–160): input validation followed by `classifyCore`. -/
def classifyTaskEnergy (taskText : String) : ClassOutcome :=
  let trimmedText := jsTrim taskText.data
  if trimmedText = [] then
    .error "Please enter a task description to get a category suggestion."
  else if trimmedText.length < 3 then
    .error "Please provide a more detailed task description (at least a few words)."
  else
    .ok (classifyCore trimmedText)

/-! ## Brain-dump task extractor data (`brainDumpTaskExtractor.ts`) -/

/-- The apostrophe character, used in two of the speech lead-in phrases. -/
def apos : Char := Char.ofNat 39

/-- The lowercase texts of the `leadInPatterns` regexes (brainDumpTaskExtractor.ts
lines 88–100), in source order; each is anchored at the start of the line and is
followed by `\s+`. -/
def leadInPhrases : List (List Char) :=
  ["i need to".data, "i should".data, "i want to".data, "i have to".data, "i must".data,
   "i".data ++ [apos] ++ "d like to".data, "i would like to".data, "let me".data,
   "let".data ++ [apos] ++ "s".data, "we need to".data, "we should".data]

/-- Strip one anchored lead-in `^PHRASE\s+` (case-insensitively); with the `^` anchor a
global-flag regex can replace at most once, so a single application is exact. -/
def stripLeadIn (phrase : List Char) (l : List Char) : List Char :=
  match litCI phrase l with
  | some r =>
    match wsPlus r with
    | some r2 => r2
    | none => l
  | none => l

/-- Apply all eleven lead-in patterns in source order (lines 102–104). -/
def removeLeadIns (l : List Char) : List Char :=
  leadInPhrases.foldl (fun cur phrase => stripLeadIn phrase cur) l

/-- The connector-word group of the repeated-connector regex
`/\b(and|then|also|next)\s+\1\b/gi` (line 107). -/
def repeatConnectorAlts : List (List Char) :=
  ["and".data, "then".data, "also".data, "next".data]

/-- Try to match `WORD\s+WORD` (same connector twice, case-insensitively) at the head
of `l`, with the trailing `\b` checked; on success return the original text of the
first occurrence (the regex replacement `$1`) and the total number of characters
matched. -/
def repeatTry (alt : List Char) (l : List Char) : Option (List Char × Nat) := do
  let r1 ← litCI alt l
  let r2 ← wsPlus r1
  let r3 ← litCI alt r2
  if boundaryOkAfter r3 then some (l.take alt.length, l.length - r3.length) else none

/-- First matching alternative of the repeated-connector group, in source order. -/
def repeatMatch (l : List Char) : Option (List Char × Nat) :=
  repeatConnectorAlts.firstM (fun alt => repeatTry alt l)

/-- Worker for `collapseDoubledConnectors`: global replace of
`/\b(and|then|also|next)\s+\1\b/gi` by `$1`, scanning left to right; `prevW`
carries whether the previous character was a word character (for the leading
`\b`); after a replacement, scanning resumes right after the matched text. -/
def collapseDoubledGo : Nat → Bool → List Char → List Char
  | 0, _, l => l
  | _ + 1, _, [] => []
  | fuel + 1, prevW, c :: rest =>
    match (if prevW then none else repeatMatch (c :: rest)) with
    | some (g, k) => g ++ collapseDoubledGo fuel true ((c :: rest).drop (max k 1))
    | none => c :: collapseDoubledGo fuel (isWordChar c) rest

/-- Model of the repeated-connector replacement regex of line 107, which rewrites
`\b(and|then|also|next)\s+\1\b` (global, case-insensitive) to its first group. -/
def collapseDoubledConnectors (l : List Char) : List Char :=
  collapseDoubledGo (l.length + 1) false l

/-- Space or tab, the class `[ \t]` (line 110). -/
def isSpaceTab (c : Char) : Bool := c = ' ' || c = '\t'

/-- Model of `normalizeLineForSpeech` (lines 84–113): strip lead-ins, collapse repeated
connectors, collapse space/tab runs, trim. -/
def normalizeLineForSpeech (line : List Char) : List Char :=
  jsTrim (collapseRuns isSpaceTab (collapseDoubledConnectors (removeLeadIns line)))

/-- The bullet glyphs of the class `[•\-*+]`. -/
def isBulletChar (c : Char) : Bool := c = '•' || c = '-' || c = '*' || c = '+'

/-- The numbered-list punctuation class `[\.\):\-]`. -/
def isNumPunct (c : Char) : Bool := c = '.' || c = ')' || c = ':' || c = '-'

/-- Model of the replacement deleting `^[•\-*+]\s*`: drop one leading bullet glyph and any following
whitespace. -/
def dropBulletLead (l : List Char) : List Char :=
  match l with
  | c :: rest => if isBulletChar c then rest.dropWhile isJsWS else l
  | [] => l

/-- Model of the replacement deleting `^\d+[\.\):\-]\s*`: drop a leading digit run, one punctuation
character, and any following whitespace. -/
def dropNumberLead (l : List Char) : List Char :=
  let ds := l.takeWhile Char.isDigit
  if ds.isEmpty then l
  else
    match l.drop ds.length with
    | p :: rest => if isNumPunct p then rest.dropWhile isJsWS else l
    | [] => l

/-- The lowercase alternatives of the leading-connector cleanup regex
`/^(and|then|also|next|after that|first|second|third|last|finally)\s+/gi`
(line 126), in source order. -/
def leadingConnectorAlts : List (List Char) :=
  ["and".data, "then".data, "also".data, "next".data, "after that".data,
   "first".data, "second".data, "third".data, "last".data, "finally".data]

/-- Strip one leading connector followed by whitespace (the regex is anchored, so a
global-flag replace applies at most once); alternatives are tried in source order. -/
def dropConnectorLead (l : List Char) : List Char :=
  match leadingConnectorAlts.firstM (fun alt => do
      let r1 ← litCI alt l
      wsPlus r1) with
  | some r => r
  | none => l

/-- Model of the replacement deleting `[,;]+$`: drop the maximal trailing run of commas/semicolons. -/
def dropTrailSeps (l : List Char) : List Char :=
  (l.reverse.dropWhile (fun c => c = ',' || c = ';')).reverse

/-- Model of `cleanTaskText` (lines 118–135): trim, strip residual bullet/number prefixes,
strip one leading orphaned connector, strip trailing commas/semicolons, collapse
all whitespace runs to single spaces, trim. -/
def cleanTaskText (text : List Char) : List Char :=
  jsTrim (collapseRuns isJsWS
    (dropTrailSeps (dropConnectorLead (dropNumberLead (dropBulletLead (jsTrim text))))))

/-- Model of `actionWords`: the identical action-verb array defined in both
`hasMultipleActionVerbs` (lines 291–307) and `isStrongTaskSegment` (lines 381–397). -/
def actionWords : List (List Char) :=
  (["add", "build", "call", "check", "clean", "complete", "create", "debug",
    "delete", "design", "develop", "document", "draft", "email", "file",
    "finish", "fix", "follow", "implement", "make", "meet", "organize",
    "plan", "prepare", "read", "refactor", "reply", "research", "review",
    "schedule", "send", "setup", "test", "update", "write", "contact",
    "analyze", "configure", "deploy", "integrate", "migrate", "optimize",
    "prototype", "coordinate", "monitor", "track", "respond", "browse",
    "watch", "listen", "sort", "archive", "backup", "copy", "format",
    "rename", "move", "download", "upload", "brainstorm", "innovate",
    "conceptualize", "learn", "study", "practice", "exercise", "meditate",
    "buy", "get", "pick", "drop", "take", "bring", "fetch", "collect",
    "submit", "approve", "reject", "validate", "verify", "confirm", "pay",
    "book", "reserve", "order", "purchase", "return", "cancel", "reschedule",
    "attend", "visit", "go", "come", "arrive", "leave", "start", "stop",
    "open", "close", "lock", "unlock", "turn", "switch", "change", "adjust"] :
    List String).map String.data

/-- The word-split `text.split(/\s+/)` used throughout the extractor. -/
def splitWords (l : List Char) : List (List Char) :=
  splitOn (toCount wsPlus) l

/-- Model of `hasMultipleActionVerbs` (lines 290–325): at least two whitespace-separated words
of the lowercased text start with an action verb. -/
def hasMultipleActionVerbs (text : List Char) : Bool :=
  2 ≤ (splitWords (toLowerL text)).countP
    (fun w => actionWords.any fun action => action.isPrefixOf w)

/-- Model of `fragmentWords` of `isValidTaskSegment` (line 350). -/
def fragmentWords : List (List Char) :=
  (["it", "that", "this", "them", "those", "these", "the", "a", "an", "and", "or", "but"] :
    List String).map String.data

/-- Model of `connectorWords` of `isValidTaskSegment` (line 361). -/
def connectorWords : List (List Char) :=
  (["then", "also", "next", "after", "before", "first", "second", "last"] :
    List String).map String.data

/-- Model of `isValidTaskSegment` (lines 331–367). -/
def isValidTaskSegment (text : List Char) : Bool :=
  if text.length < 3 then false
  else
    let words := (splitWords text).filter (fun w => !w.isEmpty)
    if words.length < 1 then false
    else if words.length = 1 && (words.headD []).length < 4 then false
    else
      let firstWord := toLowerL (words.headD [])
      if words.length = 1 && fragmentWords.contains firstWord then false
      else if words.length ≤ 2 && words.all (fun w => fragmentWords.contains (toLowerL w)) then
        false
      else if words.length = 1 && connectorWords.contains firstWord then false
      else true

/-- Model of `isStrongTaskSegment` (lines 372–403): valid, and starts with an action verb or
has at least two words. -/
def isStrongTaskSegment (text : List Char) : Bool :=
  if !isValidTaskSegment text then false
  else
    let words := (splitWords text).filter (fun w => !w.isEmpty)
    let firstWord := toLowerL (words.headD [])
    actionWords.any (fun action => action.isPrefixOf firstWord) || 2 ≤ words.length

/-- A `,\s*WORD\s+` separator (comma form of a speech connector). -/
def remCommaWord (w : String) (l : List Char) : Option (List Char) := do
  let r1 ← litCI ",".data l
  let r2 ← litCI w.data (r1.dropWhile isJsWS)
  wsPlus r2

/-- A `\s+WORD\s+` separator (plain form of a speech connector). -/
def remWsWord (w : String) (l : List Char) : Option (List Char) := do
  let r1 ← wsPlus l
  let r2 ← litCI w.data r1
  wsPlus r2

/-- Model of `separatorPatterns` of `splitMultiTaskSentence` (lines 193–210), in source order:
comma-and-then, comma-then, and-then, after-that, comma-after-that, then, also,
comma-also, and-also, next, comma-next, first, second, third, last, finally. -/
def separatorMatchers : List (List Char → Option Nat) :=
  [toCount (remCommaWord "and then"), toCount (remCommaWord "then"),
   toCount (remWsWord "and then"), toCount (remWsWord "after that"),
   toCount (remCommaWord "after that"), toCount (remWsWord "then"),
   toCount (remWsWord "also"), toCount (remCommaWord "also"),
   toCount (remWsWord "and also"), toCount (remWsWord "next"),
   toCount (remCommaWord "next"), toCount (remWsWord "first"),
   toCount (remWsWord "second"), toCount (remWsWord "third"),
   toCount (remWsWord "last"), toCount (remWsWord "finally")]

/-- The comma split `segment.split(/,\s+/)` (line 245). -/
def remCommaWs (l : List Char) : Option (List Char) := do
  let r1 ← litCI ",".data l
  wsPlus r1

/-- The last-resort split `segments[0].split(/\s+and\s+/i)` (line 267). -/
def remWsAnd (l : List Char) : Option (List Char) := remWsWord "and" l

/-- Model of `Math.ceil(n * 0.6)` for the 60%-strong acceptance thresholds (lines 252 and 278);
for the list lengths arising here the floating-point product rounds exactly like
the rational 3n/5, so the ceiling is `(3n + 4) / 5` in natural division. -/
def ceil60 (n : Nat) : Nat := (3 * n + 4) / 5

/-- One pass of a separator pattern over one segment (lines 215–237): split, and
accept the split only if there is more than one raw part and (in aggressive mode
unconditionally, otherwise) every trimmed non-empty part is a valid task segment. -/
def applySeparator (aggressive : Bool) (m : List Char → Option Nat)
    (segment : List Char) : List (List Char) :=
  let parts := splitOn m segment
  if 1 < parts.length then
    let validParts := (parts.map jsTrim).filter (fun p => !p.isEmpty)
    if aggressive || validParts.all isValidTaskSegment then validParts
    else [segment]
  else [segment]

/-- The comma-split stage (lines 240–263) applied to one segment. -/
def applyCommaSplit (segment : List Char) : List (List Char) :=
  let commaParts := splitOn (toCount remCommaWs) segment
  if 1 < commaParts.length then
    let validParts := (commaParts.map jsTrim).filter (fun p => !p.isEmpty)
    let strongParts := validParts.filter isStrongTaskSegment
    if ceil60 validParts.length ≤ strongParts.length then
      validParts.filter isValidTaskSegment
    else [segment]
  else [segment]

/-- The last-resort `" and "` stage (lines 266–282), applied when exactly one segment
remains and it contains the literal `" and "` (a case-sensitive `includes` check,
though the split itself is case-insensitive). -/
def applyAndSplit (segments : List (List Char)) : List (List Char) :=
  if segments.length = 1 && containsSeq " and ".data (segments.headD []) then
    let andParts := splitOn (toCount remWsAnd) (segments.headD [])
    if andParts.length = 2 && andParts.all (fun part => isStrongTaskSegment (jsTrim part)) then
      (andParts.map jsTrim).filter (fun p => !p.isEmpty)
    else if 2 < andParts.length then
      let validParts := (andParts.map jsTrim).filter (fun p => !p.isEmpty)
      let strongParts := validParts.filter isStrongTaskSegment
      if ceil60 validParts.length ≤ strongParts.length then
        validParts.filter isValidTaskSegment
      else segments
    else segments
  else segments

/-- Model of `splitMultiTaskSentence` (lines 191–285). -/
def splitMultiTaskSentence (text : List Char) (aggressive : Bool) : List (List Char) :=
  let segments :=
    separatorMatchers.foldl
      (fun segs m => segs.flatMap (applySeparator aggressive m)) [text]
  let segments2 :=
    if aggressive || hasMultipleActionVerbs text then
      segments.flatMap applyCommaSplit
    else segments
  let segments3 := applyAndSplit segments2
  segments3.filter (fun seg => !seg.isEmpty)

/-- The line split `text.split(/\r?\n/)` (line 27). -/
def remLineBrk : List Char → Option (List Char)
  | '\r' :: '\n' :: r => some r
  | '\n' :: r => some r
  | _ => none

/-- The split `text.split(/[\n;]/)` of `aggressiveSplit` (line 163). -/
def remNlOrSemi : List Char → Option (List Char)
  | c :: r => if c = '\n' || c = ';' then some r else none
  | [] => none

/-- The split `cleaned.split(';')` (line 42). -/
def remSemi : List Char → Option (List Char)
  | c :: r => if c = ';' then some r else none
  | [] => none

/-- A `[•\-*+]\s` occurrence, counted by `hasMultipleSeparators`. -/
def remBulletWs : List Char → Option (List Char)
  | c :: d :: r => if isBulletChar c && isJsWS d then some r else none
  | _ => none

/-- A `\d+[\.\):\-]\s` occurrence, counted by `hasMultipleSeparators`. -/
def remNumMark (l : List Char) : Option (List Char) :=
  let ds := l.takeWhile Char.isDigit
  if ds.isEmpty then none
  else
    match l.drop ds.length with
    | p :: d :: r => if isNumPunct p && isJsWS d then some r else none
    | _ => none

/-- A `\n` occurrence. -/
def remNl : List Char → Option (List Char)
  | '\n' :: r => some r
  | _ => none

/-- Model of `hasMultipleSeparators` (lines 140–154): the total count of structural separators
and connector phrases across the raw text is at least 2. -/
def hasMultipleSeparators (text : List Char) : Bool :=
  2 ≤ countOcc (toCount remNl) text
      + countOcc (toCount remBulletWs) text
      + countOcc (toCount remNumMark) text
      + countOcc (toCount remSemi) text
      + countOcc (toCount (remWsWord "and then")) text
      + countOcc (toCount (remWsWord "then")) text
      + countOcc (toCount (remWsWord "after that")) text
      + countOcc (toCount (remWsWord "next")) text
      + countOcc (toCount (remWsWord "also")) text
      + countOcc (toCount (remCommaWord "and")) text

/-- The per-line preprocessing shared by the main pass (lines 29–48) and the
aggressive pass (lines 165–178): speech normalization, bullet and number marker
stripping with trims. -/
def preprocessLine (line : List Char) : List Char :=
  let normalized := normalizeLineForSpeech line
  jsTrim (dropNumberLead (jsTrim (dropBulletLead normalized)))

/-- Model of `aggressiveSplit` (lines 159–183). -/
def aggressiveSplit (text : List Char) : List (List Char) :=
  let lines := ((splitOn (toCount remNlOrSemi) text).map jsTrim).filter (fun s => !s.isEmpty)
  let tasks := lines.flatMap fun line =>
    let cleaned := preprocessLine line
    if cleaned.isEmpty then []
    else splitMultiTaskSentence cleaned true
  (tasks.map cleanTaskText).filter (fun task => !task.isEmpty && isValidTaskSegment task)

/-- Model of `task.toLowerCase().trim()`: the normalization used by `deduplicateTasks`. -/
def normTask (task : List Char) : List Char := jsTrim (toLowerL task)

/-- Model of `result.findIndex(...)`, returning `none` for `-1`. -/
def findIdxA (p : α → Bool) : List α → Option Nat
  | [] => none
  | a :: l => if p a then some 0 else (findIdxA p l).map (· + 1)

/-- JavaScript `Set.prototype.delete`: remove the (first) occurrence of `x`,
preserving the insertion order of the rest. -/
def removeFirst (x : List Char) : List (List Char) → List (List Char)
  | [] => []
  | y :: l => if y = x then l else y :: removeFirst x l

/-- One iteration of the `deduplicateTasks` loop (lines 412–443), acting on the pair
(`seen` in insertion order, `result`): skip exact duplicates; on the first
substring relation with a seen normalization keep the longer text, replacing the
shorter one in place; otherwise append. -/
def dedupStep (seen result : List (List Char)) (task : List Char) :
    List (List Char) × List (List Char) :=
  if normTask task ∈ seen then (seen, result)
  else
    match seen.find? (fun existing =>
        containsSeq existing (normTask task) || containsSeq (normTask task) existing) with
    | none => (seen ++ [normTask task], result ++ [task])
    | some existing =>
      if existing.length < (normTask task).length then
        match findIdxA (fun t => decide (normTask t = existing)) result with
        | some i =>
          (removeFirst existing seen ++ [normTask task], result.set i task)
        | none => (seen, result)
      else (seen, result)

/-- The loop state transformer of `deduplicateTasks` on the accumulated pair. -/
def dedupFold (acc : List (List Char) × List (List Char)) (task : List Char) :
    List (List Char) × List (List Char) :=
  dedupStep acc.1 acc.2 task

/-- Model of `deduplicateTasks` (lines 408–446). -/
def deduplicateTasks (tasks : List (List Char)) : List (List Char) :=
  (tasks.foldl dedupFold ([], [])).2

/-- The candidate fragments produced by steps 1–6 of `extractTasksFromBrainDump`
(lines 24–49): line split, per-line normalization and marker stripping, semicolon
split, and multi-task sentence splitting. -/
def extractCandidates (text : List Char) : List (List Char) :=
  let lines := ((splitOn (toCount remLineBrk) text).map jsTrim).filter (fun s => !s.isEmpty)
  lines.flatMap fun line =>
    let cleaned := preprocessLine line
    if cleaned.isEmpty then []
    else
      let semicolonSegments :=
        ((splitOn (toCount remSemi) cleaned).map jsTrim).filter (fun s => !s.isEmpty)
      semicolonSegments.flatMap fun segment => splitMultiTaskSentence segment false

/-- The `validTasks` post-processing (lines 52–54): clean every candidate and keep the
non-empty valid ones. -/
def validCandidates (text : List Char) : List (List Char) :=
  ((extractCandidates text).map cleanTaskText).filter
    (fun task => !task.isEmpty && isValidTaskSegment task)

/-- The deduplicated fragment list (line 57). -/
def dedupedCandidates (text : List Char) : List (List Char) :=
  deduplicateTasks (validCandidates text)

/-- Model of `extractTasksFromBrainDump` (lines 19–76) on character lists: blank input yields
`[]`; otherwise the deduplicated fragments, escalated to an aggressive re-split
when exactly one fragment remains but the raw text signals multiple tasks, and
falling back to the whole cleaned input when no fragment survived. -/
def extractTasks (text : List Char) : List (List Char) :=
  if jsTrim text = [] then []
  else if (dedupedCandidates text).length = 1
      && (hasMultipleSeparators text || hasMultipleActionVerbs text) then
    if 1 < (aggressiveSplit text).length then deduplicateTasks (aggressiveSplit text)
    else dedupedCandidates text
  else if dedupedCandidates text = [] ∧ 0 < (jsTrim text).length then
    if (cleanTaskText text).isEmpty then dedupedCandidates text
    else [cleanTaskText text]
  else dedupedCandidates text

/-- Model of `extractTasksFromBrainDump` at the public `string → string[]` signature. -/
def extractTasksFromBrainDump (text : String) : List String :=
  (extractTasks text.data).map String.mk


/-- Explanation of a successful outcome, if any. -/
def ClassOutcome.explanationOf : ClassOutcome → Option String
  | .ok r => some r.explanation
  | .error _ => none

/-- The category selected by the ordered fallback heuristics of `classifyTaskEnergy`
(lines 139–156): high complexity, else quick time estimate, else short input,
else STEADY. -/
def fallbackCategory (t : List Char) : EnergyCategory :=
  if analyzeComplexity t = .high then .DEEP
  else if analyzeTimeEstimate t = some .quick then .LOW
  else if t.length < 20 then .NONE
  else .STEADY

/-- No two adjacent space characters. -/
def noDoubleSpace : List Char → Bool
  | [] => true
  | a :: rest =>
    match rest with
    | [] => true
    | b :: _ => !(a == ' ' && b == ' ') && noDoubleSpace rest

/-- The loop invariant of `deduplicateTasks`: the `seen` set is duplicate-free, the
normalized texts of `result` are pairwise distinct, and `seen` holds exactly the
normalized texts of `result`. -/
def DedupInv (seen result : List (List Char)) : Prop :=
  seen.Nodup ∧ (result.map normTask).Nodup ∧ ∀ x, x ∈ seen ↔ x ∈ result.map normTask

/-! ## Properties of trimming and whitespace collapsing -/

theorem dropWhile_dropWhile (p : Char → Bool) (l : List Char) :
    List.dropWhile p (List.dropWhile p l) = List.dropWhile p l := by
  induction l with
  | nil => rfl
  | cons c r ih =>
    rw [List.dropWhile_cons]
    split
    · exact ih
    · rw [List.dropWhile_cons]
      simp_all

theorem trimStartWS_head (l : List Char) (c : Char) (r : List Char)
    (h : trimStartWS l = c :: r) : isJsWS c = false := by
  induction l with
  | nil => simp [trimStartWS] at h
  | cons a l ih =>
    unfold trimStartWS at h ih
    rw [List.dropWhile_cons] at h
    split at h
    · exact ih h
    · cases h
      simp_all

theorem trimEndWS_trimEndWS (l : List Char) : trimEndWS (trimEndWS l) = trimEndWS l := by
  unfold trimEndWS
  rw [List.reverse_reverse, dropWhile_dropWhile]

theorem trimStartWS_trimEndWS_trimStartWS (l : List Char) :
    trimStartWS (trimEndWS (trimStartWS l)) = trimEndWS (trimStartWS l) := by
  rcases h : trimEndWS (trimStartWS l) with _ | ⟨c, r⟩
  · rfl
  · have hc : isJsWS c = false := by
      have hpref : ∃ b, trimStartWS l = (c :: r) ++ b := by
        refine ⟨(((trimStartWS l).reverse.takeWhile isJsWS)).reverse, ?_⟩
        rw [← h]
        unfold trimEndWS
        rw [← List.reverse_append, List.takeWhile_append_dropWhile, List.reverse_reverse]
      rcases hpref with ⟨b, hb⟩
      exact trimStartWS_head l c (r ++ b) (by simpa using hb)
    unfold trimStartWS
    rw [List.dropWhile_cons]
    simp [hc]

theorem jsTrim_idem (l : List Char) : jsTrim (jsTrim l) = jsTrim l := by
  unfold jsTrim
  rw [trimStartWS_trimEndWS_trimStartWS, trimEndWS_trimEndWS]

theorem jsTrim_decomp (l : List Char) : ∃ a b, l = a ++ jsTrim l ++ b := by
  refine ⟨l.takeWhile isJsWS, ((trimStartWS l).reverse.takeWhile isJsWS).reverse, ?_⟩
  unfold jsTrim trimEndWS
  conv_lhs => rw [← List.takeWhile_append_dropWhile (p := isJsWS) (l := l)]
  rw [List.append_assoc]
  congr 1
  show trimStartWS l = _
  conv_lhs => rw [← List.reverse_reverse (trimStartWS l),
    ← List.takeWhile_append_dropWhile (p := isJsWS) (l := (trimStartWS l).reverse)]
  rw [List.reverse_append]

theorem mem_of_mem_jsTrim (l : List Char) (c : Char) (h : c ∈ jsTrim l) : c ∈ l := by
  rcases jsTrim_decomp l with ⟨a, b, hab⟩
  rw [hab]
  simp [h]

theorem noDoubleSpace_cons_cons (a b : Char) (l : List Char) :
    noDoubleSpace (a :: b :: l) = (!(a == ' ' && b == ' ') && noDoubleSpace (b :: l)) := rfl

theorem collapseRuns_single (p : Char → Bool) (c : Char) :
    collapseRuns p [c] = if p c then [' '] else [c] := rfl

theorem collapseRuns_cons_cons (p : Char → Bool) (c c2 : Char) (r : List Char) :
    collapseRuns p (c :: c2 :: r) =
      if p c && p c2 then collapseRuns p (c2 :: r)
      else (if p c then ' ' else c) :: collapseRuns p (c2 :: r) := rfl

theorem noDoubleSpace_tail (c : Char) (l : List Char) (h : noDoubleSpace (c :: l) = true) :
    noDoubleSpace l = true := by
  cases l with
  | nil => rfl
  | cons b r =>
    rw [noDoubleSpace_cons_cons, Bool.and_eq_true] at h
    exact h.2

theorem noDoubleSpace_append_right (a b : List Char) (h : noDoubleSpace (a ++ b) = true) :
    noDoubleSpace b = true := by
  induction a with
  | nil => exact h
  | cons x a ih => exact ih (noDoubleSpace_tail x (a ++ b) h)

theorem noDoubleSpace_append_left (a b : List Char) (h : noDoubleSpace (a ++ b) = true) :
    noDoubleSpace a = true := by
  induction a with
  | nil => rfl
  | cons x a ih =>
    cases a with
    | nil => rfl
    | cons y a' =>
      rw [List.cons_append, List.cons_append, noDoubleSpace_cons_cons, Bool.and_eq_true] at h
      rw [noDoubleSpace_cons_cons, Bool.and_eq_true]
      refine ⟨h.1, ih ?_⟩
      rw [List.cons_append]
      exact h.2

theorem collapseRuns_head (p : Char → Bool) (l : List Char) (c : Char) :
    (collapseRuns p (c :: l)).head? = some (if p c then ' ' else c) := by
  induction l generalizing c with
  | nil => by_cases hc : p c <;> simp [collapseRuns_single, hc]
  | cons c2 r ih =>
    rw [collapseRuns_cons_cons]
    by_cases h : p c && p c2
    · have hc : p c = true := by simp_all
      have hc2 : p c2 = true := by simp_all
      rw [if_pos h, ih c2]
      simp [hc, hc2]
    · rw [if_neg h]
      simp

theorem collapseRuns_mem (p : Char → Bool) (l : List Char) (c : Char)
    (h : c ∈ collapseRuns p l) : c = ' ' ∨ (p c = false ∧ c ∈ l) := by
  induction l with
  | nil => simp [collapseRuns] at h
  | cons a rest ih =>
    cases rest with
    | nil =>
      rw [collapseRuns_single] at h
      by_cases ha : p a
      · rw [if_pos ha, List.mem_singleton] at h
        exact .inl h
      · rw [if_neg ha, List.mem_singleton] at h
        subst h
        exact .inr ⟨by simpa using ha, by simp⟩
    | cons c2 r =>
      rw [collapseRuns_cons_cons] at h
      by_cases hp : p a && p c2
      · rw [if_pos hp] at h
        rcases ih h with h1 | ⟨h1, h2⟩
        · exact .inl h1
        · exact .inr ⟨h1, List.mem_cons_of_mem a h2⟩
      · rw [if_neg hp, List.mem_cons] at h
        rcases h with h | h
        · by_cases ha : p a
          · left; simpa [ha] using h
          · right
            rw [if_neg ha] at h
            subst h
            simp [ha]
        · rcases ih h with h1 | ⟨h1, h2⟩
          · exact .inl h1
          · exact .inr ⟨h1, List.mem_cons_of_mem a h2⟩

theorem noDoubleSpace_cons_of (x : Char) (l : List Char)
    (h1 : ∀ y, l.head? = some y → ¬(x = ' ' ∧ y = ' '))
    (h2 : noDoubleSpace l = true) : noDoubleSpace (x :: l) = true := by
  cases l with
  | nil => rfl
  | cons y r =>
    have := h1 y rfl
    rw [noDoubleSpace_cons_cons, Bool.and_eq_true]
    refine ⟨?_, h2⟩
    by_cases hx : x = ' ' <;> by_cases hy : y = ' ' <;> simp_all

theorem noDoubleSpace_collapseRuns (p : Char → Bool) (hp : p ' ' = true) (l : List Char) :
    noDoubleSpace (collapseRuns p l) = true := by
  induction l with
  | nil => rfl
  | cons a rest ih =>
    cases rest with
    | nil => by_cases ha : p a <;> simp [collapseRuns_single, ha, noDoubleSpace]
    | cons c2 r =>
      rw [collapseRuns_cons_cons]
      by_cases h : p a && p c2
      · rw [if_pos h]
        exact ih
      · rw [if_neg h]
        refine noDoubleSpace_cons_of _ _ ?_ ih
        intro y hy
        rw [collapseRuns_head p r c2] at hy
        rintro ⟨hx, hy'⟩
        by_cases ha : p a
        · have hc2 : p c2 = false := by
            cases hc2 : p c2
            · rfl
            · simp [ha, hc2] at h
          rw [if_neg (by simp [hc2])] at hy
          cases hy
          subst hy'
          simp [hp] at hc2
        · rw [if_neg ha] at hx
          subst hx
          simp [hp] at ha

/-! ## Properties of `cleanTaskText` -/

theorem cleanTaskText_trimmed (y : List Char) : jsTrim (cleanTaskText y) = cleanTaskText y := by
  unfold cleanTaskText
  exact jsTrim_idem _

theorem cleanTaskText_noDoubleSpace (y : List Char) :
    noDoubleSpace (cleanTaskText y) = true := by
  unfold cleanTaskText
  rcases jsTrim_decomp (collapseRuns isJsWS
    (dropTrailSeps (dropConnectorLead (dropNumberLead (dropBulletLead (jsTrim y)))))) with
    ⟨a, b, hab⟩
  have h := noDoubleSpace_collapseRuns isJsWS (by decide)
    (dropTrailSeps (dropConnectorLead (dropNumberLead (dropBulletLead (jsTrim y)))))
  rw [hab, List.append_assoc] at h
  exact noDoubleSpace_append_left _ _ (noDoubleSpace_append_right _ _ h)

theorem cleanTaskText_ws_space (y : List Char) (c : Char) (h : c ∈ cleanTaskText y)
    (hws : isJsWS c = true) : c = ' ' := by
  unfold cleanTaskText at h
  have h2 := mem_of_mem_jsTrim _ _ h
  rcases collapseRuns_mem _ _ _ h2 with h3 | ⟨h3, _⟩
  · exact h3
  · rw [hws] at h3
    cases h3

theorem cleanTaskText_of_blank (y : List Char) (h : jsTrim y = []) : cleanTaskText y = [] := by
  unfold cleanTaskText
  rw [h]
  decide

/-! ## Properties of `deduplicateTasks` -/

theorem findIdxA_spec {α : Type} (p : α → Bool) :
    ∀ (l : List α) (i : Nat), findIdxA p l = some i →
      ∃ h : i < l.length, p (l.get ⟨i, h⟩) = true := by
  intro l
  induction l with
  | nil => intro i h; cases h
  | cons a l ih =>
    intro i h
    unfold findIdxA at h
    by_cases ha : p a
    · rw [if_pos ha] at h
      cases h
      exact ⟨by simp, ha⟩
    · rw [if_neg ha, Option.map_eq_some'] at h
      rcases h with ⟨j, hj, rfl⟩
      rcases ih j hj with ⟨hlt, hp⟩
      exact ⟨by simpa using Nat.succ_lt_succ hlt, hp⟩

theorem removeFirst_sublist (x : List Char) : ∀ l, List.Sublist (removeFirst x l) l := by
  intro l
  induction l with
  | nil => exact .refl _
  | cons y l ih =>
    unfold removeFirst
    by_cases hy : y = x
    · rw [if_pos hy]
      exact List.sublist_cons_self y l
    · rw [if_neg hy]
      exact ih.cons₂ y

theorem removeFirst_mem_iff (x e : List Char) :
    ∀ (l : List (List Char)), l.Nodup → e ∈ l →
      (x ∈ removeFirst e l ↔ x ∈ l ∧ x ≠ e) := by
  intro l
  induction l with
  | nil => intro _ he; cases he
  | cons y l ih =>
    intro hnd he
    rw [List.nodup_cons] at hnd
    unfold removeFirst
    by_cases hy : y = e
    · subst hy
      rw [if_pos rfl]
      constructor
      · intro hx
        exact ⟨List.mem_cons_of_mem y hx, fun hxe => hnd.1 (hxe ▸ hx)⟩
      · rintro ⟨hx, hne⟩
        rcases List.mem_cons.mp hx with rfl | hx
        · exact absurd rfl hne
        · exact hx
    · rw [if_neg hy]
      have he' : e ∈ l := by
        rcases List.mem_cons.mp he with rfl | h
        · exact absurd rfl hy
        · exact h
      rw [List.mem_cons, ih hnd.2 he', List.mem_cons]
      constructor
      · rintro (rfl | ⟨hx, hne⟩)
        · exact ⟨.inl rfl, hy⟩
        · exact ⟨.inr hx, hne⟩
      · rintro ⟨rfl | hx, hne⟩
        · exact .inl rfl
        · exact .inr ⟨hx, hne⟩

theorem nodup_set {α : Type} (b : α) :
    ∀ (M : List α) (i : Nat), M.Nodup → b ∉ M → (M.set i b).Nodup := by
  intro M
  induction M with
  | nil => intro i _ _; simp
  | cons a M ih =>
    intro i hnd hb
    rw [List.nodup_cons] at hnd
    cases i with
    | zero =>
      rw [List.set_cons_zero, List.nodup_cons]
      exact ⟨fun h => hb (List.mem_cons_of_mem a h), hnd.2⟩
    | succ i =>
      rw [List.set_cons_succ, List.nodup_cons]
      refine ⟨?_, ih i hnd.2 (fun h => hb (List.mem_cons_of_mem a h))⟩
      intro ha
      rcases List.mem_or_eq_of_mem_set ha with h | rfl
      · exact hnd.1 h
      · exact hb (List.mem_cons_self a M)

theorem mem_set_iff {α : Type} (b x : α) :
    ∀ (M : List α) (i : Nat) (hnd : M.Nodup) (h : i < M.length),
      (x ∈ M.set i b ↔ (x ∈ M ∧ x ≠ M.get ⟨i, h⟩) ∨ x = b) := by
  intro M
  induction M with
  | nil => intro i _ h; cases h
  | cons a M ih =>
    intro i hnd h
    rw [List.nodup_cons] at hnd
    cases i with
    | zero =>
      rw [List.set_cons_zero]
      show x ∈ b :: M ↔ (x ∈ a :: M ∧ x ≠ a) ∨ x = b
      rw [List.mem_cons, List.mem_cons]
      constructor
      · rintro (rfl | hx)
        · exact .inr rfl
        · exact .inl ⟨.inr hx, fun hxa => hnd.1 (hxa ▸ hx)⟩
      · rintro (⟨rfl | hx, hne⟩ | rfl)
        · exact absurd rfl hne
        · exact .inr hx
        · exact .inl rfl
    | succ i =>
      rw [List.set_cons_succ]
      have hi : i < M.length := by simpa using h
      show x ∈ a :: M.set i b ↔ (x ∈ a :: M ∧ x ≠ M.get ⟨i, hi⟩) ∨ x = b
      have hgm : M.get ⟨i, hi⟩ ∈ M := List.get_mem M i hi
      rw [List.mem_cons, ih i hnd.2 hi, List.mem_cons]
      constructor
      · rintro (rfl | ⟨hx, hne⟩ | rfl)
        · exact .inl ⟨.inl rfl, fun hae => hnd.1 (hae ▸ hgm)⟩
        · exact .inl ⟨.inr hx, hne⟩
        · exact .inr rfl
      · rintro (⟨rfl | hx, hne⟩ | rfl)
        · exact .inl rfl
        · exact .inr (.inl ⟨hx, hne⟩)
        · exact .inr (.inr rfl)

theorem dedupStep_snd_mem (s r : List (List Char)) (task x : List Char)
    (h : x ∈ (dedupStep s r task).2) : x ∈ r ∨ x = task := by
  unfold dedupStep at h
  split at h
  · exact .inl h
  · split at h
    · rcases List.mem_append.mp h with h | h
      · exact .inl h
      · exact .inr (List.mem_singleton.mp h)
    · split at h
      · split at h
        · exact (List.mem_or_eq_of_mem_set h).imp id id
        · exact .inl h
      · exact .inl h

theorem foldl_dedup_snd_mem (x : List Char) :
    ∀ (l : List (List Char)) (s r : List (List Char)),
      x ∈ (l.foldl dedupFold (s, r)).2 → x ∈ r ∨ x ∈ l := by
  intro l
  induction l with
  | nil => intro s r h; exact .inl h
  | cons a l ih =>
    intro s r h
    rw [List.foldl_cons] at h
    rcases hp : dedupStep s r a with ⟨s', r'⟩
    rw [show dedupFold (s, r) a = dedupStep s r a from rfl, hp] at h
    rcases ih s' r' h with h1 | h1
    · have h2 := dedupStep_snd_mem s r a x (by rw [hp]; exact h1)
      rcases h2 with h2 | rfl
      · exact .inl h2
      · exact .inr (List.mem_cons_self _ _)
    · exact .inr (List.mem_cons_of_mem a h1)

theorem dedup_subset (l : List (List Char)) (x : List Char)
    (h : x ∈ deduplicateTasks l) : x ∈ l := by
  rcases foldl_dedup_snd_mem x l [] [] h with h1 | h1
  · cases h1
  · exact h1

theorem dedupStep_snd_len (s r : List (List Char)) (task : List Char) :
    r.length ≤ (dedupStep s r task).2.length := by
  unfold dedupStep
  split
  · exact Nat.le_refl _
  · split
    · simp
    · split
      · split
        · simp
        · exact Nat.le_refl _
      · exact Nat.le_refl _

theorem foldl_dedup_snd_len :
    ∀ (l : List (List Char)) (s r : List (List Char)),
      r.length ≤ (l.foldl dedupFold (s, r)).2.length := by
  intro l
  induction l with
  | nil => intro s r; exact Nat.le_refl _
  | cons a l ih =>
    intro s r
    rw [List.foldl_cons]
    rcases hp : dedupStep s r a with ⟨s', r'⟩
    have h1 := dedupStep_snd_len s r a
    rw [hp] at h1
    rw [show dedupFold (s, r) a = dedupStep s r a from rfl, hp]
    exact Nat.le_trans h1 (ih s' r')

theorem dedup_ne_nil (l : List (List Char)) (h : l ≠ []) : deduplicateTasks l ≠ [] := by
  rcases l with _ | ⟨a, l⟩
  · exact absurd rfl h
  · unfold deduplicateTasks
    rw [List.foldl_cons]
    have hstep : dedupStep [] [] a = ([normTask a], [a]) := by
      unfold dedupStep
      rw [if_neg (by simp)]
      rfl
    rw [show dedupFold ([], []) a = dedupStep [] [] a from rfl, hstep]
    have h2 := foldl_dedup_snd_len l [normTask a] [a]
    intro hnil
    rw [hnil] at h2
    simp at h2

theorem dedupStep_inv (s r : List (List Char)) (task : List Char) (h : DedupInv s r) :
    DedupInv (dedupStep s r task).1 (dedupStep s r task).2 := by
  rcases h with ⟨hs, hm, hiff⟩
  unfold dedupStep
  by_cases hmem : normTask task ∈ s
  · rw [if_pos hmem]
    exact ⟨hs, hm, hiff⟩
  · rw [if_neg hmem]
    split
    · -- no substring relation with any seen normalization: append to both lists
      refine ⟨?_, ?_, ?_⟩
      · rw [List.nodup_append]
        refine ⟨hs, List.nodup_singleton _, ?_⟩
        intro a ha hb
        rw [List.mem_singleton] at hb
        exact hmem (hb ▸ ha)
      · rw [List.map_append, List.nodup_append]
        refine ⟨hm, by simp, ?_⟩
        intro a ha hb
        simp only [List.map_cons, List.map_nil, List.mem_singleton] at hb
        subst hb
        exact hmem ((hiff _).mpr ha)
      · intro x
        simp only [List.map_append, List.mem_append, List.map_cons, List.map_nil]
        rw [hiff x]
    · -- a seen normalization `e` is substring-related to the new normalization
      rename_i e hfind
      have he : e ∈ s := List.mem_of_find?_eq_some hfind
      split
      · rename_i hlen
        split
        · -- replacement: the longer text overwrites position `i` of the result
          rename_i i hidx
          rcases findIdxA_spec _ r i hidx with ⟨hi, hpi⟩
          rw [decide_eq_true_eq] at hpi
          have hiM : i < (r.map normTask).length := by simpa using hi
          have hgetM : (r.map normTask).get ⟨i, hiM⟩ = e := by
            rw [List.get_map]
            exact hpi
          have hnM : normTask task ∉ r.map normTask := fun hc => hmem ((hiff _).mpr hc)
          refine ⟨?_, ?_, ?_⟩
          · rw [List.nodup_append]
            refine ⟨List.Nodup.sublist (removeFirst_sublist e s) hs,
              List.nodup_singleton _, ?_⟩
            intro a ha hb
            rw [List.mem_singleton] at hb
            exact hmem (hb ▸ ((removeFirst_sublist e s).subset ha))
          · rw [List.map_set]
            exact nodup_set _ _ _ hm hnM
          · intro x
            rw [List.map_set, List.mem_append,
              removeFirst_mem_iff x e s hs he, List.mem_singleton,
              mem_set_iff _ _ _ i hm hiM, hgetM, hiff x]
        · exact ⟨hs, hm, hiff⟩
      · exact ⟨hs, hm, hiff⟩

theorem foldl_dedup_inv :
    ∀ (l : List (List Char)) (s r : List (List Char)), DedupInv s r →
      DedupInv (l.foldl dedupFold (s, r)).1 (l.foldl dedupFold (s, r)).2 := by
  intro l
  induction l with
  | nil => intro s r h; exact h
  | cons a l ih =>
    intro s r h
    rw [List.foldl_cons]
    rcases hp : dedupStep s r a with ⟨s', r'⟩
    rw [show dedupFold (s, r) a = dedupStep s r a from rfl, hp]
    have h2 := dedupStep_inv s r a h
    rw [hp] at h2
    exact ih s' r' h2

theorem dedup_nodup (l : List (List Char)) :
    ((deduplicateTasks l).map normTask).Nodup := by
  unfold deduplicateTasks
  exact (foldl_dedup_inv l [] [] ⟨List.nodup_nil, List.nodup_nil, by simp⟩).2.1

/-! ## Shape of the extractor output -/

theorem isEmpty_false_iff (l : List Char) : l.isEmpty = false ↔ l ≠ [] := by
  cases l <;> simp

theorem mem_validCandidates (t x : List Char) (h : x ∈ validCandidates t) :
    (∃ y, x = cleanTaskText y) ∧ x ≠ [] ∧ isValidTaskSegment x = true := by
  unfold validCandidates at h
  rw [List.mem_filter] at h
  rcases h with ⟨h1, h2⟩
  rw [Bool.and_eq_true, Bool.not_eq_true'] at h2
  rcases List.mem_map.mp h1 with ⟨y, _, rfl⟩
  exact ⟨⟨y, rfl⟩, (isEmpty_false_iff _).mp h2.1, h2.2⟩

theorem mem_aggressiveSplit (t x : List Char) (h : x ∈ aggressiveSplit t) :
    (∃ y, x = cleanTaskText y) ∧ x ≠ [] ∧ isValidTaskSegment x = true := by
  unfold aggressiveSplit at h
  rw [List.mem_filter] at h
  rcases h with ⟨h1, h2⟩
  rw [Bool.and_eq_true, Bool.not_eq_true'] at h2
  rcases List.mem_map.mp h1 with ⟨y, _, rfl⟩
  exact ⟨⟨y, rfl⟩, (isEmpty_false_iff _).mp h2.1, h2.2⟩

/-- Every fragment returned by `extractTasks` is the image of some text under
`cleanTaskText` and is non-empty; on every return path except the absolute
fallback it moreover passes `isValidTaskSegment`. -/
theorem mem_extractTasks (t x : List Char) (h : x ∈ extractTasks t) :
    (∃ y, x = cleanTaskText y) ∧ x ≠ [] := by
  unfold extractTasks at h
  split at h
  · cases h
  · split at h
    · split at h
      · have h2 := dedup_subset _ _ h
        rcases mem_aggressiveSplit t x h2 with ⟨hy, hne, _⟩
        exact ⟨hy, hne⟩
      · have h2 := dedup_subset _ _ h
        rcases mem_validCandidates t x h2 with ⟨hy, hne, _⟩
        exact ⟨hy, hne⟩
    · split at h
      · split at h
        · rename_i hcond hemp
          rw [hcond.1] at h
          cases h
        · rename_i hcond hemp
          rw [List.mem_singleton] at h
          subst h
          exact ⟨⟨t, rfl⟩, (isEmpty_false_iff _).mp (by simpa using hemp)⟩
      · have h2 := dedup_subset _ _ h
        rcases mem_validCandidates t x h2 with ⟨hy, hne, _⟩
        exact ⟨hy, hne⟩

/-- The output of `extractTasks` always has pairwise-distinct normalized texts. -/
theorem extractTasks_nodup (t : List Char) :
    ((extractTasks t).map normTask).Nodup := by
  unfold extractTasks
  split
  · simp
  · split
    · split
      · exact dedup_nodup _
      · exact dedup_nodup _
    · split
      · split
        · exact dedup_nodup _
        · simp
      · exact dedup_nodup _

/-! ## Claim theorems -/

set_option maxRecDepth 8000

/-- C1: `classifyTaskEnergy` returns an error value if and only if the trimmed input
is empty or has trimmed length < 3; for every other input it returns a success value
whose category is one of {DEEP, STEADY, LOW, NONE} and whose confidence is one of
{high, medium, low}. -/
theorem classify_error_iff_short_input (s : String) :
    ((classifyTaskEnergy s).isErr = true ↔
      (jsTrim s.data = [] ∨ (jsTrim s.data).length < 3)) ∧
    ∀ r, classifyTaskEnergy s = .ok r →
      (r.category = .DEEP ∨ r.category = .STEADY ∨ r.category = .LOW ∨ r.category = .NONE) ∧
      (r.confidence = .high ∨ r.confidence = .medium ∨ r.confidence = .low) := by
  constructor
  · by_cases h1 : jsTrim s.data = []
    · simp [classifyTaskEnergy, h1, ClassOutcome.isErr]
    · by_cases h2 : (jsTrim s.data).length < 3
      · simp [classifyTaskEnergy, h1, h2, ClassOutcome.isErr]
      · simp [classifyTaskEnergy, h1, h2, ClassOutcome.isErr]
  · intro r _
    rcases r with ⟨cat, e, conf⟩
    exact ⟨by cases cat <;> simp, by cases conf <;> simp⟩

/-- Witness for C1 at the concrete input `"hello there"`. -/
theorem classify_error_iff_short_input_witness :
    (({ category := .NONE,
        explanation := "This seems like a simple, straightforward task. Best guess based on the brief description.",
        confidence := .low } : ClassificationResult).category = EnergyCategory.DEEP ∨
     ({ category := .NONE,
        explanation := "This seems like a simple, straightforward task. Best guess based on the brief description.",
        confidence := .low } : ClassificationResult).category = .STEADY ∨
     ({ category := .NONE,
        explanation := "This seems like a simple, straightforward task. Best guess based on the brief description.",
        confidence := .low } : ClassificationResult).category = .LOW ∨
     ({ category := .NONE,
        explanation := "This seems like a simple, straightforward task. Best guess based on the brief description.",
        confidence := .low } : ClassificationResult).category = .NONE) ∧
    (({ category := .NONE,
        explanation := "This seems like a simple, straightforward task. Best guess based on the brief description.",
        confidence := .low } : ClassificationResult).confidence = Confidence.high ∨
     ({ category := .NONE,
        explanation := "This seems like a simple, straightforward task. Best guess based on the brief description.",
        confidence := .low } : ClassificationResult).confidence = .medium ∨
     ({ category := .NONE,
        explanation := "This seems like a simple, straightforward task. Best guess based on the brief description.",
        confidence := .low } : ClassificationResult).confidence = .low) :=
  (classify_error_iff_short_input "hello there").2 _ (by decide)

/-- C5: whenever the adjusted scores do not have a unique strict maximum greater
than 0, `classifyTaskEnergy` picks the category by the ordered fallback heuristics
(high complexity → DEEP; else quick time → LOW; else trimmed length < 20 → NONE;
else STEADY) and the confidence is low. -/
theorem classify_fallback_heuristics (s : String)
    (h1 : jsTrim s.data ≠ [])
    (h2 : ¬ (jsTrim s.data).length < 3)
    (h3 : ¬ ((topCategories (jsTrim s.data)).length = 1 ∧ 0 < maxAdjScore (jsTrim s.data))) :
    ∀ r, classifyTaskEnergy s = .ok r →
      r.category = fallbackCategory (jsTrim s.data) ∧ r.confidence = .low := by
  intro r hr
  simp only [classifyTaskEnergy] at hr
  rw [if_neg h1, if_neg h2] at hr
  injection hr with hr
  subst hr
  unfold classifyCore fallbackCategory
  rw [if_neg h3]
  by_cases hc : analyzeComplexity (jsTrim s.data) = .high
  · rw [if_pos hc, if_pos hc]
    exact ⟨rfl, rfl⟩
  · rw [if_neg hc, if_neg hc]
    by_cases ht : analyzeTimeEstimate (jsTrim s.data) = some .quick
    · rw [if_pos ht, if_pos ht]
      exact ⟨rfl, rfl⟩
    · rw [if_neg ht, if_neg ht]
      by_cases hl : (jsTrim s.data).length < 20
      · rw [if_pos hl, if_pos hl]
        exact ⟨rfl, rfl⟩
      · rw [if_neg hl, if_neg hl]
        exact ⟨rfl, rfl⟩

/-- Witness for C5 at the concrete no-signal input `"xyz"`. -/
theorem classify_fallback_heuristics_witness :
    (¬ ((topCategories (jsTrim "xyz".data)).length = 1 ∧ 0 < maxAdjScore (jsTrim "xyz".data))) ∧
    (({ category := .NONE,
        explanation := "This seems like a simple, straightforward task. Best guess based on the brief description.",
        confidence := .low } : ClassificationResult).category =
          fallbackCategory (jsTrim "xyz".data) ∧
     ({ category := .NONE,
        explanation := "This seems like a simple, straightforward task. Best guess based on the brief description.",
        confidence := .low } : ClassificationResult).confidence = Confidence.low) :=
  ⟨by decide, classify_fallback_heuristics "xyz" (by decide) (by decide) (by decide) _ (by decide)⟩

/-- Core fact behind C8: whenever `classifyCore` yields confidence low, its
explanation contains the text `Best guess` (as a substring, not a prefix). -/
theorem classifyCore_low_explanation (t : List Char)
    (hconf : (classifyCore t).confidence = .low) :
    containsSeq "Best guess".data (classifyCore t).explanation.data = true := by
  unfold classifyCore at hconf ⊢
  by_cases hcond : (topCategories t).length = 1 ∧ 0 < maxAdjScore t
  · rw [if_pos hcond] at hconf
    exfalso
    have h1 : confFromMax (maxAdjScore t) = .low := hconf
    unfold confFromMax at h1
    rcases hcond with ⟨_, hpos⟩
    split at h1
    · exact absurd h1 (by decide)
    · split at h1
      · exact absurd h1 (by decide)
      · omega
  · rw [if_neg hcond]
    by_cases hc : analyzeComplexity t = .high
    · rw [if_pos hc]
      decide
    · rw [if_neg hc]
      by_cases ht : analyzeTimeEstimate t = some .quick
      · rw [if_pos ht]
        decide
      · rw [if_neg ht]
        by_cases hl : t.length < 20
        · rw [if_pos hl]
          decide
        · rw [if_neg hl]
          decide

/-- C8 (amended): every success value with confidence low has an explanation that
contains the substring `Best guess`. -/
theorem low_confidence_contains_best_guess (s : String) (r : ClassificationResult)
    (hr : classifyTaskEnergy s = .ok r) (hconf : r.confidence = .low) :
    containsSeq "Best guess".data r.explanation.data = true := by
  simp only [classifyTaskEnergy] at hr
  split at hr
  · cases hr
  · split at hr
    · cases hr
    · injection hr with hr
      subst hr
      exact classifyCore_low_explanation _ hconf

/-- Witness for C8 at the concrete input `"xyz"`. -/
theorem low_confidence_contains_best_guess_witness :
    containsSeq "Best guess".data
      ("This seems like a simple, straightforward task. Best guess based on the brief description." : String).data = true :=
  low_confidence_contains_best_guess "xyz"
    { category := .NONE,
      explanation := "This seems like a simple, straightforward task. Best guess based on the brief description.",
      confidence := .low }
    (by decide) (by decide)

/-- Counterexample to C8 as stated: `classifyTaskEnergy "xyz"` has confidence low,
but its explanation does not begin with the prefix `Best guess: ` (the prefixing
branch of `generateExplanation` is unreachable for low confidence, which only
arises in the fallback branch with its own hard-coded explanations). -/
theorem low_confidence_prefix_counterexample :
    (classifyTaskEnergy "xyz").confidenceOf = some Confidence.low ∧
    (classifyTaskEnergy "xyz").explanationOf =
      some "This seems like a simple, straightforward task. Best guess based on the brief description." ∧
    List.isPrefixOf ("Best guess: ".data)
      ("This seems like a simple, straightforward task. Best guess based on the brief description.".data)
      = false :=
  ⟨by decide, by decide, by decide⟩

/-- C4 (amended): classifying `"design a new caching architecture"` yields category
DEEP with confidence medium (exactly the two DEEP keywords `design` and `architect`
match, and a score of 2 gives medium, not high, confidence). -/
theorem classify_design_architecture :
    (classifyTaskEnergy "design a new caching architecture").categoryOf =
      some EnergyCategory.DEEP ∧
    (classifyTaskEnergy "design a new caching architecture").confidenceOf =
      some Confidence.medium :=
  ⟨by decide, by decide⟩

/-- Counterexample to C4 as stated: the confidence for
`"design a new caching architecture"` is not high. -/
theorem classify_design_architecture_counterexample :
    (classifyTaskEnergy "design a new caching architecture").confidenceOf ≠
      some Confidence.high := by decide

/-- C9: the extractor maps the empty string, and every whitespace-only string, to the
empty list (and, being a total function, never throws). -/
theorem extract_blank_empty :
    extractTasksFromBrainDump "" = [] ∧
    ∀ t : String, jsTrim t.data = [] → extractTasksFromBrainDump t = [] := by
  constructor
  · rfl
  · intro t h
    unfold extractTasksFromBrainDump extractTasks
    rw [if_pos h]
    rfl

/-- Witness for C9 at the whitespace-only input `"   "`. -/
theorem extract_blank_empty_witness :
    jsTrim "   ".data = [] ∧ extractTasksFromBrainDump "   " = [] :=
  ⟨by decide, extract_blank_empty.2 "   " (by decide)⟩

/-- C10: every fragment returned by `extractTasksFromBrainDump`, on every return
path, equals its own trim, contains no newline or tab character, and contains no
two consecutive spaces (all its whitespace was collapsed by `cleanTaskText`). -/
theorem extract_output_normalized (t s : String) (h : s ∈ extractTasksFromBrainDump t) :
    jsTrim s.data = s.data ∧
    s.data.all (fun c => !(c == '\n' || c == '\t')) = true ∧
    noDoubleSpace s.data = true := by
  unfold extractTasksFromBrainDump at h
  rcases List.mem_map.mp h with ⟨d, hd, rfl⟩
  rcases mem_extractTasks t.data d hd with ⟨⟨y, rfl⟩, _⟩
  refine ⟨cleanTaskText_trimmed y, ?_, cleanTaskText_noDoubleSpace y⟩
  rw [List.all_eq_true]
  intro c hc
  have hch := cleanTaskText_ws_space y c hc
  have hn : c ≠ '\n' := fun h1 => by
    subst h1
    exact absurd (hch (by decide)) (by decide)
  have ht2 : c ≠ '\t' := fun h1 => by
    subst h1
    exact absurd (hch (by decide)) (by decide)
  simp [hn, ht2]

/-- Witness for C10 at the concrete input `"hello world"`. -/
theorem extract_output_normalized_witness :
    ("hello world" ∈ extractTasksFromBrainDump "hello world") ∧
    (jsTrim "hello world".data = "hello world".data ∧
     "hello world".data.all (fun c => !(c == '\n' || c == '\t')) = true ∧
     noDoubleSpace "hello world".data = true) :=
  ⟨by decide, extract_output_normalized "hello world" "hello world" (by decide)⟩

/-- C7 (amended): every fragment returned by `extractTasksFromBrainDump` is non-empty
and equals its own trim, on every return path including the absolute fallback; the
stronger "never purely punctuation nor a lone connector word" holds only for
fragments accepted by the validity filter, not for the fallback fragment. -/
theorem extract_fragments_trimmed_nonempty (t s : String)
    (h : s ∈ extractTasksFromBrainDump t) :
    jsTrim s.data = s.data ∧ s ≠ "" := by
  unfold extractTasksFromBrainDump at h
  rcases List.mem_map.mp h with ⟨d, hd, rfl⟩
  rcases mem_extractTasks t.data d hd with ⟨⟨y, rfl⟩, hne⟩
  refine ⟨cleanTaskText_trimmed y, ?_⟩
  intro hcon
  exact hne (congrArg String.data hcon)

/-- Witness for C7 at the concrete input `"hello world"`. -/
theorem extract_fragments_trimmed_nonempty_witness :
    ("hello world" ∈ extractTasksFromBrainDump "hello world") ∧
    (jsTrim "hello world".data = "hello world".data ∧ ("hello world" : String) ≠ "") :=
  ⟨by decide, extract_fragments_trimmed_nonempty "hello world" "hello world" (by decide)⟩

/-- Counterexample to C7 as stated: the input `"then"` survives only through the
absolute fallback and the returned fragment is exactly the lone connector word
`then`, which the validity filter itself rejects. -/
theorem extract_lone_connector_counterexample :
    extractTasksFromBrainDump "then" = ["then"] ∧
    connectorWords.contains "then".data = true ∧
    isValidTaskSegment "then".data = false :=
  ⟨by decide, by decide, by decide⟩

/-- C6 (amended): the fragments returned by `extractTasksFromBrainDump` always have
pairwise-distinct normalized (lowercased, trimmed) texts — exact duplicates never
co-occur — and `extractTasksFromBrainDump "call mom\ncall mom please"` returns
exactly `["call mom please"]`, the longer fragment surviving.  (Fragments where one
normalized text is a proper substring of another can still co-occur, because the
duplicate scan stops at the first substring relation and replacements are not
re-checked against the remaining fragments.) -/
theorem extract_nodup_normalized :
    (∀ t : String,
      ((extractTasksFromBrainDump t).map (fun s => normTask s.data)).Nodup) ∧
    extractTasksFromBrainDump "call mom\ncall mom please" = ["call mom please"] := by
  constructor
  · intro t
    unfold extractTasksFromBrainDump
    rw [List.map_map]
    exact extractTasks_nodup t.data
  · decide

/-- Counterexample to C6 as stated: on
`"pay rent\ncall mom\npay rent call mom"` the extractor returns two fragments where
the normalized text of the second is a substring of the normalized text of the
first (the replacement of `pay rent` by the longer `pay rent call mom` is never
re-checked against `call mom`). -/
theorem extract_substring_pair_counterexample :
    extractTasksFromBrainDump "pay rent\ncall mom\npay rent call mom" =
      ["pay rent call mom", "call mom"] ∧
    containsSeq (normTask "call mom".data) (normTask "pay rent call mom".data) = true :=
  ⟨by decide, by decide⟩

/-- C2 (amended): for every input whose cleaned text `cleanTaskText` is non-empty,
the extractor returns a non-empty list (the absolute fallback guarantees this); a
non-blank input whose cleaned text is empty yields the empty list. -/
theorem extract_nonempty_of_clean_nonempty (t : String)
    (h : cleanTaskText t.data ≠ []) :
    extractTasksFromBrainDump t ≠ [] := by
  unfold extractTasksFromBrainDump
  intro hcon
  rw [List.map_eq_nil] at hcon
  have hblank : jsTrim t.data ≠ [] := fun hb => h (cleanTaskText_of_blank _ hb)
  unfold extractTasks at hcon
  rw [if_neg hblank] at hcon
  split at hcon
  · rename_i hcond
    split at hcon
    · rename_i hlen
      refine dedup_ne_nil _ ?_ hcon
      intro he
      rw [he] at hlen
      simp at hlen
    · rw [Bool.and_eq_true, decide_eq_true_eq] at hcond
      rw [hcon] at hcond
      simp at hcond
  · split at hcon
    · split at hcon
      · rename_i hemp
        rw [(isEmpty_false_iff _).mpr h] at hemp
        cases hemp
      · cases hcon
    · rename_i hcond2
      exact hcond2 ⟨hcon, List.length_pos.mpr hblank⟩

/-- Witness for C2 at the concrete input `"hello world"`. -/
theorem extract_nonempty_of_clean_nonempty_witness :
    cleanTaskText "hello world".data ≠ [] ∧
    extractTasksFromBrainDump "hello world" ≠ [] :=
  ⟨by decide, extract_nonempty_of_clean_nonempty "hello world" (by decide)⟩

/-- Counterexample to C2 as stated: `","` is non-blank (its trim is non-empty) but
the extractor returns the empty list, because the cleanup stage strips the trailing
comma down to the empty string and the fallback refuses empty fragments. -/
theorem extract_comma_counterexample :
    jsTrim ",".data ≠ [] ∧ extractTasksFromBrainDump "," = [] :=
  ⟨by decide, by decide⟩

/-- C3 (amended): `extractTasksFromBrainDump "email Alex and then pay rent"` returns
exactly `["email Alex", "pay rent"]`; but on `"review the second draft"` the
validity gate does not prevent the split on the connector word `second` (both
resulting parts pass `isValidTaskSegment`), so the extractor returns
`["review the", "draft"]` rather than the intact sentence. -/
theorem connector_split_examples :
    extractTasksFromBrainDump "email Alex and then pay rent" =
      ["email Alex", "pay rent"] ∧
    extractTasksFromBrainDump "review the second draft" = ["review the", "draft"] :=
  ⟨by decide, by decide⟩

/-- Counterexample to C3 as stated: `"review the second draft"` is split on
`second` (the parts `review the` and `draft` both pass the validity test), so the
result is not the single intact fragment the claim requires. -/
theorem second_split_counterexample :
    extractTasksFromBrainDump "review the second draft" ≠
      ["review the second draft"] := by decide
